import Mathlib

/-!
Verification of the actalog-benchmark core: the concurrent load-generation
engine (`internal/metrics/benchmark_api.go`), its percentile statistics, and
the multi-run comparison / threshold-alerting analysis
(`internal/reporter/comparison.go`).

Go `float64` values are embedded as rationals (`ℚ`): every arithmetic
operation the verified claims depend on (comparisons with 0, tallying,
sorting, linear interpolation at small inputs) is exact in both domains.
Go `int` fields are embedded as `ℤ` where they come from parsed records and
as `ℕ` where they are counters the engine itself produces.
-/

namespace ActalogBench

/-! ### Percentile engine (benchmark_api.go, `percentile`) -/

/-- Go conversion `int(x)` for `float64`: truncation toward zero. -/
def truncQ (q : ℚ) : ℤ := if q < 0 then ⌈q⌉ else ⌊q⌋

/-- Go `sort.Float64s`, embedded as insertion sort: any correct sort produces
the same list (the unique ascending reordering), so the embedding is
extensionally faithful. -/
def sortQ (l : List ℚ) : List ℚ := l.insertionSort (· ≤ ·)

/-- Embedding of `percentile` (benchmark_api.go lines 592-607).  The Go code
indexes slices directly and would panic on an out-of-range index; here the
accesses use `List.getD` with default 0, and `percentileChecked` below makes
the in-bounds obligation explicit.  `sorted` is the already-sorted sample
slice, exactly as in the source (the caller sorts). -/
def percentile (sorted : List ℚ) (p : ℚ) : ℚ :=
  if sorted.length = 0 then 0
  else
    let index : ℚ := (p / 100) * ((sorted.length : ℚ) - 1)
    let lower : ℤ := truncQ index
    let upper : ℤ := lower + 1
    if (sorted.length : ℤ) ≤ upper then sorted.getD (sorted.length - 1) 0
    else
      let weight : ℚ := index - (lower : ℚ)
      sorted.getD lower.toNat 0 * (1 - weight) + sorted.getD upper.toNat 0 * weight

/-- The same function with the Go slice accesses made fallible: `none` marks
an access that would panic (index out of the slice bounds). -/
def percentileChecked (sorted : List ℚ) (p : ℚ) : Option ℚ :=
  if sorted.length = 0 then some 0
  else
    let index : ℚ := (p / 100) * ((sorted.length : ℚ) - 1)
    let lower : ℤ := truncQ index
    let upper : ℤ := lower + 1
    if (sorted.length : ℤ) ≤ upper then some (sorted.getD (sorted.length - 1) 0)
    else
      if 0 ≤ lower ∧ upper.toNat < sorted.length then
        let weight : ℚ := index - (lower : ℚ)
        some (sorted.getD lower.toNat 0 * (1 - weight) + sorted.getD upper.toNat 0 * weight)
      else none

/-- Modelled from the spec words (§4.2 Algorithm), for the refinement claim:
sort ascending; n = 0 gives 0; n = 1 gives the single value; otherwise
interpolate between order statistics at `idx = (P/100)*(n-1)` with
`lo = floor(idx)`, `hi = lo+1` clamped to `n-1`, `w = idx - lo`. -/
def specPercentile (samples : List ℚ) (p : ℚ) : ℚ :=
  let sorted := sortQ samples
  let n := sorted.length
  if n = 0 then 0
  else if n = 1 then sorted.headD 0
  else
    let idx : ℚ := (p / 100) * ((n : ℚ) - 1)
    let lo : ℕ := (⌊idx⌋).toNat
    let hi : ℕ := min (lo + 1) (n - 1)
    let w : ℚ := idx - (lo : ℚ)
    sorted.getD lo 0 * (1 - w) + sorted.getD hi 0 * w

/-! ### Load generator (benchmark_api.go, `LoadTest`)

`LoadTest` starts `concurrent` workers; each worker loops
`select { case <-ctx.Done(): return; default: <one request> }` where `ctx`
carries a timeout of `duration` (`context.WithTimeout`).  The worker model
below is the step semantics of that loop: each iteration polls the deadline
signal at the moment the next request would start, and the poll result is
`now ≥ deadline`.  One planned request is a `ReqSpec`: the wall-clock time
the request would take against the target and the outcome (transport error
flag, HTTP status) it would produce if it ran to completion.

The same `ctx` is passed to `client.Get`, which builds the request with
`http.NewRequestWithContext`, so when the deadline fires while a request is
in flight the HTTP layer cancels it: `Get` returns a transport error at the
deadline, and the worker records that error outcome with the latency
measured up to that point (`deadline - start`).  This cancellation is part
of the step semantics below. -/

/-- One planned request of a worker: service duration and the natural
outcome it would have if allowed to run to completion. -/
structure ReqSpec where
  dur : ℚ
  err : Bool
  status : ℕ
deriving DecidableEq

/-- One recorded request outcome: start time, recorded latency, and the
recorded outcome (transport-error flag and HTTP status). -/
structure Sample where
  start : ℚ
  latency : ℚ
  err : Bool
  status : ℕ
deriving DecidableEq

/-- Step semantics of one worker's loop.  `t` is the current time (the run
starts at 0, the deadline is the configured duration).  Before each request
the worker polls the cancellation signal (`deadline ≤ t` means the signal
fired) and exits without starting a new request.  Otherwise the request
starts at `t`: if it would finish by the deadline it completes with its
natural outcome; if the deadline arrives while it is in flight, the timeout
context cancels it, `client.Get` returns an error at time `deadline`, and
the worker records a failed sample with latency `deadline - t`, after which
its next poll observes the signal. -/
def workerRun (deadline : ℚ) : ℚ → List ReqSpec → List Sample
  | _, [] => []
  | t, r :: rs =>
    if deadline ≤ t then []
    else if t + r.dur ≤ deadline then
      ⟨t, r.dur, r.err, r.status⟩ :: workerRun deadline (t + r.dur) rs
    else
      ⟨t, deadline - t, true, 0⟩ :: workerRun deadline deadline rs

/-- The time at which one worker observes the cancellation signal and exits
(its contribution to the join barrier `wg.Wait()`). -/
def workerEnd (deadline : ℚ) : ℚ → List ReqSpec → ℚ
  | t, [] => t
  | t, r :: rs =>
    if deadline ≤ t then t
    else if t + r.dur ≤ deadline then workerEnd deadline (t + r.dur) rs
    else workerEnd deadline deadline rs

/-- All samples recorded by the worker pool; each worker owns one schedule
and all workers share the collection (`latencies`/counters in the source;
aggregation is insensitive to the interleaving order, §5). -/
def loadSamples (deadline : ℚ) (scheds : List (List ReqSpec)) : List Sample :=
  (scheds.map (workerRun deadline 0)).flatten

/-- The success test of the worker loop body: no transport error and a 2xx
status (`resp.StatusCode >= 200 && resp.StatusCode < 300`). -/
def sampleSuccess (s : Sample) : Bool :=
  !s.err && (decide (200 ≤ s.status) && decide (s.status < 300))

/-- The failure test of the worker loop body: transport error, or a
completed response outside 2xx. -/
def sampleFailed (s : Sample) : Bool :=
  s.err || !(decide (200 ≤ s.status) && decide (s.status < 300))

/-- Embedding of `internal.LoadTestResult`: aggregate of one load-test run.  Counter
fields are Go `int` (here `ℤ`, since the same struct is also parsed from
historical JSON records); latency/throughput fields are `float64` (`ℚ`). -/
structure LoadTestResult where
  concurrent : ℤ
  durationSec : ℚ
  totalRequests : ℤ
  successful : ℤ
  failed : ℤ
  rps : ℚ
  latencyP50Ms : ℚ
  latencyP95Ms : ℚ
  latencyP99Ms : ℚ
  minLatencyMs : ℚ
  maxLatencyMs : ℚ
  avgLatencyMs : ℚ
deriving DecidableEq

/-- The aggregation tail of `LoadTest` (benchmark_api.go lines 560-586)
applied to the samples the worker pool produced: exact tallies of
per-request outcomes, `rps = total / actualElapsed`, and — when at least
one sample exists — min/max, interpolated p50/p95/p99 and the mean over the
sorted latency collection; with no samples every latency statistic is the
Go zero value 0. -/
def loadTestModel (deadline : ℚ) (scheds : List (List ReqSpec)) : LoadTestResult :=
  let samples := loadSamples deadline scheds
  let latencies := samples.map (·.latency)
  let sorted := sortQ latencies
  let total := samples.length
  let elapsed := (scheds.map (workerEnd deadline 0)).foldr max 0
  { concurrent := (scheds.length : ℤ)
    durationSec := deadline
    totalRequests := (total : ℤ)
    successful := ((samples.countP sampleSuccess : ℕ) : ℤ)
    failed := ((samples.countP sampleFailed : ℕ) : ℤ)
    rps := (total : ℚ) / elapsed
    latencyP50Ms := if 0 < latencies.length then percentile sorted 50 else 0
    latencyP95Ms := if 0 < latencies.length then percentile sorted 95 else 0
    latencyP99Ms := if 0 < latencies.length then percentile sorted 99 else 0
    minLatencyMs := if 0 < latencies.length then sorted.headD 0 else 0
    maxLatencyMs := if 0 < latencies.length then sorted.getD (sorted.length - 1) 0 else 0
    avgLatencyMs := if 0 < latencies.length then sorted.sum / (sorted.length : ℚ) else 0 }

/-! ### Run records and the comparator (comparison.go)

Only the fields the comparator and the threshold evaluator read are
embedded; presentation-only fields (error strings, per-result status
booleans, connectivity, the server-side benchmark section) play no role in
the verified claims. -/

/-- Embedding of `internal.HealthResult` (the fields the comparator reads). -/
structure HealthResult where
  status : String
  responseMs : ℚ
deriving DecidableEq

/-- Embedding of `internal.EndpointResult` (the fields the comparator reads). -/
structure EndpointResult where
  path : String
  responseMs : ℚ
deriving DecidableEq

/-- Embedding of `internal.AssetResult` (the fields the comparator reads). -/
structure AssetResult where
  path : String
  sizeKB : ℚ
  responseMs : ℚ
deriving DecidableEq

/-- Embedding of `internal.FrontendResult` (the fields the comparator reads). -/
structure FrontendResult where
  indexHTML : Option AssetResult
  totalSizeKB : ℚ
  totalTimeMs : ℚ
  assets : List AssetResult
deriving DecidableEq

/-- Embedding of `internal.BenchmarkResult`: one historical run record.  Optional
sections are Go nil-able pointers, embedded as `Option`; an absent section
is distinguishable from a measured zero.  The timestamp only feeds report
labels and the (external) chronological ordering, so it is an abstract
integer here. -/
structure BenchmarkResult where
  timestamp : ℤ
  health : Option HealthResult
  endpoints : List EndpointResult
  frontend : Option FrontendResult
  loadTest : Option LoadTestResult
deriving DecidableEq

/-- Embedding of `reporter.ThresholdConfig`: five independent numeric limits. -/
structure ThresholdConfig where
  latencyP95MaxMs : ℚ
  latencyP99MaxMs : ℚ
  errorRateMaxPct : ℚ
  rpsMinimum : ℚ
  healthResponseMax : ℚ
deriving DecidableEq

/-- The observable content of the delta strings built by
`formatDelta`/`formatDeltaSize`/`formatDeltaRPS`: `noData` is the `"-"`
cell, `rawRegression v` is the red `+v` cell printed when no percentage is
computable, `rawImprovement v` the green `+v` cell in the same situation,
`improvement`/`regression` carry the signed difference and percentage of
the green/red cells, and `noChange` is the `~0` cell.  The `%.2f` numeric
rendering of the strings is not modelled, only which branch produced the
cell and with which numbers. -/
inductive DeltaClass where
  | noData : DeltaClass
  | rawRegression : ℚ → DeltaClass
  | rawImprovement : ℚ → DeltaClass
  | improvement : ℚ → ℚ → DeltaClass
  | regression : ℚ → ℚ → DeltaClass
  | noChange : DeltaClass
deriving DecidableEq

/-- Embedding of `formatDelta` (comparison.go lines 819-838): time-based
metrics, lower is better, epsilon 0.01. -/
def formatDelta (last first : ℚ) : DeltaClass :=
  if first = 0 ∧ last = 0 then .noData
  else if first = 0 then .rawRegression last
  else
    let diff := last - first
    let pct := diff / first * 100
    if diff < -(1/100) then .improvement diff pct
    else if (1/100) < diff then .regression diff pct
    else .noChange

/-- Embedding of `formatDeltaSize` (comparison.go lines 840-859): size
metrics in KB, lower is better, epsilon 0.1. -/
def formatDeltaSize (last first : ℚ) : DeltaClass :=
  if first = 0 ∧ last = 0 then .noData
  else if first = 0 then .rawRegression last
  else
    let diff := last - first
    let pct := diff / first * 100
    if diff < -(1/10) then .improvement diff pct
    else if (1/10) < diff then .regression diff pct
    else .noChange

/-- Embedding of `formatDeltaRPS` (comparison.go lines 861-880): throughput,
higher is better (the classification sign is inverted), epsilon 0.1.  Note
the `first == 0` branch prints the green (improvement) marker. -/
def formatDeltaRPS (last first : ℚ) : DeltaClass :=
  if first = 0 ∧ last = 0 then .noData
  else if first = 0 then .rawImprovement last
  else
    let diff := last - first
    let pct := diff / first * 100
    if (1/10) < diff then .improvement diff pct
    else if diff < -(1/10) then .regression diff pct
    else .noChange

/-- The `pathSet`-guarded append of the key-collection loops: add a key to
the accumulated list unless it was already collected. -/
def addKey (acc : List String) (p : String) : List String :=
  if p ∈ acc then acc else acc ++ [p]

/-- Go `sort.Strings`, embedded as insertion sort on the lexicographic
string order. -/
def sortStrings (l : List String) : List String := l.insertionSort (· ≤ ·)

/-- Embedding of `collectEndpointPaths` (comparison.go lines 892-905): all
unique endpoint paths across all results, first-occurrence deduplicated,
then sorted. -/
def collectEndpointPaths (results : List BenchmarkResult) : List String :=
  sortStrings (results.foldl
    (fun acc r => r.endpoints.foldl (fun a ep => addKey a ep.path) acc) [])

/-- Embedding of `getEndpointResponseTime` (comparison.go lines 908-915):
the response time of the first endpoint entry matching `path`, when the run
has one (`found`). -/
def getEndpointResponseTime (r : BenchmarkResult) (path : String) : Option ℚ :=
  (r.endpoints.find? (fun ep => ep.path == path)).map (·.responseMs)

/-- The body of the `collectAssetPaths` loop for one run: skip a run
without a frontend section; otherwise add `"index.html"` first (when that
run measured the index page) and then the run's other assets in their
stored order. -/
def assetStep (acc : List String) (r : BenchmarkResult) : List String :=
  match r.frontend with
  | none => acc
  | some f =>
    let acc2 := match f.indexHTML with
      | some _ => addKey acc "index.html"
      | none => acc
    f.assets.foldl (fun a asset => addKey a asset.path) acc2

/-- Embedding of `collectAssetPaths` (comparison.go lines 918-941): all
unique asset paths across all results, in encounter order.  Unlike the
endpoint paths, this list is NOT sorted before being returned. -/
def collectAssetPaths (results : List BenchmarkResult) : List String :=
  results.foldl assetStep []

/-- Embedding of `getAssetMetrics` (comparison.go lines 944-957): size and
response time for `path` in one run; `"index.html"` resolves to the index
page when that run measured it, any other path (or `"index.html"` when the
index page is absent) resolves to the first matching entry of the run's
asset list. -/
def getAssetMetrics (r : BenchmarkResult) (path : String) : Option (ℚ × ℚ) :=
  match r.frontend with
  | none => none
  | some f =>
    if path = "index.html" ∧ f.indexHTML.isSome then
      f.indexHTML.map (fun a => (a.sizeKB, a.responseMs))
    else
      (f.assets.find? (fun a => a.path == path)).map (fun a => (a.sizeKB, a.responseMs))

/-- The per-endpoint delta cell of the Report loop (comparison.go lines
315-338): among the runs that report a value for the key (`found`), the
first one seen sets `firstVal`, the last one seen sets `lastVal`, and the
delta is `formatDelta lastVal firstVal`; when no run reports a value the
cell is the `"-"` placeholder (`none`). -/
def endpointDelta (results : List BenchmarkResult) (path : String) : Option DeltaClass :=
  match results.filterMap (fun r => getEndpointResponseTime r path) with
  | [] => none
  | v :: vs => some (formatDelta ((v :: vs).getLastD 0) v)

/-- One threshold alert: which run, which rule, the observed value and the
configured limit (the source renders these into an alert string together
with the run timestamp). -/
structure Alert where
  runIdx : ℕ
  metric : String
  observed : ℚ
  threshold : ℚ
deriving DecidableEq

/-- The per-run body of `checkThresholds` (comparison.go lines 960-1004):
the five rules in source order — health response time, p95 latency, p99
latency, error rate (only when the run made at least one request), RPS
minimum.  A run without the relevant optional section contributes no alert
for that rule. -/
def checkRun (t : ThresholdConfig) (i : ℕ) (r : BenchmarkResult) : List Alert :=
  (match r.health with
    | some h =>
      if t.healthResponseMax < h.responseMs then
        [⟨i, "health_response", h.responseMs, t.healthResponseMax⟩]
      else []
    | none => []) ++
  (match r.loadTest with
    | some lt =>
      (if t.latencyP95MaxMs < lt.latencyP95Ms then
        [⟨i, "p95_latency", lt.latencyP95Ms, t.latencyP95MaxMs⟩]
      else []) ++
      (if t.latencyP99MaxMs < lt.latencyP99Ms then
        [⟨i, "p99_latency", lt.latencyP99Ms, t.latencyP99MaxMs⟩]
      else []) ++
      (if 0 < lt.totalRequests ∧
          t.errorRateMaxPct < (lt.failed : ℚ) / (lt.totalRequests : ℚ) * 100 then
        [⟨i, "error_rate", (lt.failed : ℚ) / (lt.totalRequests : ℚ) * 100, t.errorRateMaxPct⟩]
      else []) ++
      (if lt.rps < t.rpsMinimum then
        [⟨i, "rps", lt.rps, t.rpsMinimum⟩]
      else [])
    | none => [])

/-- Embedding of `checkThresholds`: every run evaluated independently, runs
in their (chronological) list order, rules in source order within a run. -/
def checkThresholds (t : ThresholdConfig) (results : List BenchmarkResult) : List Alert :=
  (results.enum.map (fun p => checkRun t p.1 p.2)).flatten

/-- The structured content of a comparison report: the reconciled key lists
and the alert list (the rendered tables and CSV blocks are presentation of
these plus the per-run field values). -/
structure ReportData where
  endpointPaths : List String
  assetPaths : List String
  alerts : List Alert
deriving DecidableEq

/-- The orchestration skeleton of `Comparison.Report` (comparison.go lines
109-117 and onward): fewer than 2 inputs is rejected up front with the
source's error message, before any loading, key reconciliation, delta
computation or threshold evaluation; otherwise the full analysis runs. -/
def report (t : ThresholdConfig) (runs : List BenchmarkResult) : Except String ReportData :=
  if runs.length < 2 then
    .error ("comparison requires at least 2 JSON files, got " ++ toString runs.length)
  else
    .ok { endpointPaths := collectEndpointPaths runs
          assetPaths := collectAssetPaths runs
          alerts := checkThresholds t runs }

/-! ### Concrete run fixtures (inputs for concrete instantiations) -/

/-- A run whose frontend section contains the single asset `b.js` and no
index page measurement. -/
def assetRunB : BenchmarkResult :=
  ⟨0, none, [], some ⟨none, 1, 1, [⟨"b.js", 1, 1⟩]⟩, none⟩

/-- A later run with one endpoint `/a` and the single asset `a.js`. -/
def assetRunA : BenchmarkResult :=
  ⟨1, none, [⟨"/a", 5⟩], some ⟨none, 2, 2, [⟨"a.js", 1, 1⟩]⟩, none⟩

/-! ### Percentile-engine lemmas -/

lemma truncQ_eq_floor {q : ℚ} (h : 0 ≤ q) : truncQ q = ⌊q⌋ := by
  simp [truncQ, not_lt.mpr h]

lemma getD_sorted_mono (s : List ℚ) (hs : List.Sorted (· ≤ ·) s)
    {i j : ℕ} (hij : i ≤ j) (hj : j < s.length) : s.getD i 0 ≤ s.getD j 0 := by
  have hi : i < s.length := lt_of_le_of_lt hij hj
  rw [List.getD_eq_getElem s 0 hi, List.getD_eq_getElem s 0 hj]
  have := List.Sorted.rel_get_of_le hs (a := ⟨i, hi⟩) (b := ⟨j, hj⟩) (Fin.mk_le_mk.mpr hij)
  simpa [List.get_eq_getElem] using this

lemma percentile_eq_cases (s : List ℚ) (p : ℚ) (hp : 0 ≤ p) (hn : s.length ≠ 0) :
    percentile s p =
      if (s.length : ℤ) ≤ ⌊(p / 100) * ((s.length : ℚ) - 1)⌋ + 1 then
        s.getD (s.length - 1) 0
      else
        s.getD (⌊(p / 100) * ((s.length : ℚ) - 1)⌋).toNat 0 *
            (1 - ((p / 100) * ((s.length : ℚ) - 1) -
              ((⌊(p / 100) * ((s.length : ℚ) - 1)⌋ : ℤ) : ℚ))) +
          s.getD ((⌊(p / 100) * ((s.length : ℚ) - 1)⌋ + 1).toNat) 0 *
            ((p / 100) * ((s.length : ℚ) - 1) -
              ((⌊(p / 100) * ((s.length : ℚ) - 1)⌋ : ℤ) : ℚ)) := by
  have hn1 : (1 : ℚ) ≤ (s.length : ℚ) := by
    have : 1 ≤ s.length := Nat.one_le_iff_ne_zero.mpr hn
    exact_mod_cast this
  have hidx : 0 ≤ (p / 100) * ((s.length : ℚ) - 1) :=
    mul_nonneg (div_nonneg hp (by norm_num)) (by linarith)
  simp only [percentile, if_neg hn, truncQ_eq_floor hidx]

lemma percentile_sorted_zero (s : List ℚ) (hn : s.length ≠ 0) :
    percentile s 0 = s.getD 0 0 := by
  have hidx : (0 : ℚ) / 100 * ((s.length : ℚ) - 1) = 0 := by ring
  rw [percentile_eq_cases s 0 le_rfl hn, hidx]
  simp only [Int.floor_zero, Int.cast_zero, sub_zero, Int.toNat_zero]
  split_ifs with hb
  · have : s.length = 1 := by omega
    simp [this]
  · norm_num

lemma percentile_sorted_hundred (s : List ℚ) (hn : s.length ≠ 0) :
    percentile s 100 = s.getD (s.length - 1) 0 := by
  have hidx : (100 : ℚ) / 100 * ((s.length : ℚ) - 1) = (s.length : ℚ) - 1 := by ring
  rw [percentile_eq_cases s 100 (by norm_num) hn, hidx]
  have hcast : ((s.length : ℚ) - 1) = (((s.length : ℤ) - 1 : ℤ) : ℚ) := by push_cast; ring
  rw [hcast, Int.floor_intCast, if_pos (by omega)]

lemma interp_ge_left (s : List ℚ) (hs : List.Sorted (· ≤ ·) s)
    {i : ℕ} (hi : i + 1 < s.length) {w : ℚ} (hw0 : 0 ≤ w) (hw1 : w ≤ 1) :
    s.getD i 0 ≤ s.getD i 0 * (1 - w) + s.getD (i + 1) 0 * w := by
  have := getD_sorted_mono s hs (Nat.le_succ i) hi
  nlinarith

lemma interp_le_right (s : List ℚ) (hs : List.Sorted (· ≤ ·) s)
    {i : ℕ} (hi : i + 1 < s.length) {w : ℚ} (hw0 : 0 ≤ w) (hw1 : w ≤ 1) :
    s.getD i 0 * (1 - w) + s.getD (i + 1) 0 * w ≤ s.getD (i + 1) 0 := by
  have := getD_sorted_mono s hs (Nat.le_succ i) hi
  nlinarith

lemma headD_eq_getD_zero (l : List ℚ) : l.headD 0 = l.getD 0 0 := by
  cases l <;> rfl

lemma sortQ_sorted (l : List ℚ) : List.Sorted (· ≤ ·) (sortQ l) :=
  List.sorted_insertionSort _ l

lemma sortQ_perm (l : List ℚ) : List.Perm (sortQ l) l :=
  List.perm_insertionSort _ l

lemma sortQ_length (l : List ℚ) : (sortQ l).length = l.length :=
  List.length_insertionSort _ l

lemma percentile_mono (s : List ℚ) (hs : List.Sorted (· ≤ ·) s)
    {p₁ p₂ : ℚ} (h0 : 0 ≤ p₁) (h12 : p₁ ≤ p₂) (h100 : p₂ ≤ 100) :
    percentile s p₁ ≤ percentile s p₂ := by
  rcases Nat.eq_zero_or_pos s.length with hn | hn
  · simp [percentile, hn]
  have hn0 : s.length ≠ 0 := Nat.pos_iff_ne_zero.mp hn
  have hn1 : (1 : ℚ) ≤ (s.length : ℚ) := by exact_mod_cast hn
  have hnn : (0 : ℚ) ≤ (s.length : ℚ) - 1 := by linarith
  rw [percentile_eq_cases s p₁ h0 hn0, percentile_eq_cases s p₂ (le_trans h0 h12) hn0]
  set idx₁ : ℚ := (p₁ / 100) * ((s.length : ℚ) - 1) with hidx₁
  set idx₂ : ℚ := (p₂ / 100) * ((s.length : ℚ) - 1) with hidx₂
  have hi₁0 : 0 ≤ idx₁ := mul_nonneg (div_nonneg h0 (by norm_num)) hnn
  have hi12 : idx₁ ≤ idx₂ :=
    mul_le_mul_of_nonneg_right
      ((div_le_div_iff_of_pos_right (by norm_num : (0 : ℚ) < 100)).mpr h12) hnn
  have hiup : idx₂ ≤ (s.length : ℚ) - 1 := by
    have hp2 : p₂ / 100 ≤ 1 := by linarith
    calc idx₂ ≤ 1 * ((s.length : ℚ) - 1) := mul_le_mul_of_nonneg_right hp2 hnn
    _ = (s.length : ℚ) - 1 := one_mul _
  set l₁ : ℤ := ⌊idx₁⌋ with hl₁
  set l₂ : ℤ := ⌊idx₂⌋ with hl₂
  have hl₁0 : 0 ≤ l₁ := Int.floor_nonneg.mpr hi₁0
  have hl12 : l₁ ≤ l₂ := Int.floor_le_floor hi12
  have hl₂n : l₂ ≤ (s.length : ℤ) - 1 := by
    have hcast : ((s.length : ℚ) - 1) = (((s.length : ℤ) - 1 : ℤ) : ℚ) := by push_cast; ring
    calc l₂ ≤ ⌊(s.length : ℚ) - 1⌋ := Int.floor_le_floor hiup
    _ = (s.length : ℤ) - 1 := by rw [hcast, Int.floor_intCast]
  have hw₁0 : 0 ≤ idx₁ - (l₁ : ℚ) := sub_nonneg.mpr (Int.floor_le idx₁)
  have hw₁1 : idx₁ - (l₁ : ℚ) < 1 := by
    have := Int.lt_floor_add_one idx₁
    push_cast at this ⊢
    linarith
  have hw₂0 : 0 ≤ idx₂ - (l₂ : ℚ) := sub_nonneg.mpr (Int.floor_le idx₂)
  have hw₂1 : idx₂ - (l₂ : ℚ) < 1 := by
    have := Int.lt_floor_add_one idx₂
    push_cast at this ⊢
    linarith
  split_ifs with hb₁ hb₂ hb₂
  · exact le_refl _
  · omega
  · -- idx₁ interpolates, idx₂ clamps to the last element
    have hl₁top : l₁.toNat + 1 < s.length := by omega
    have htop : (l₁ + 1).toNat = l₁.toNat + 1 := by omega
    rw [htop]
    calc s.getD l₁.toNat 0 * (1 - (idx₁ - (l₁ : ℚ))) +
          s.getD (l₁.toNat + 1) 0 * (idx₁ - (l₁ : ℚ)) ≤
        s.getD (l₁.toNat + 1) 0 :=
          interp_le_right s hs hl₁top hw₁0 (le_of_lt hw₁1)
    _ ≤ s.getD (s.length - 1) 0 := getD_sorted_mono s hs (by omega) (by omega)
  · -- both interpolate
    have hl₁top : l₁.toNat + 1 < s.length := by omega
    have hl₂top : l₂.toNat + 1 < s.length := by omega
    have htop₁ : (l₁ + 1).toNat = l₁.toNat + 1 := by omega
    have htop₂ : (l₂ + 1).toNat = l₂.toNat + 1 := by omega
    rw [htop₁, htop₂]
    rcases eq_or_lt_of_le hl12 with heq | hlt
    · -- same lower order statistic: weight is monotone
      rw [← heq]
      have hww : idx₁ - (l₁ : ℚ) ≤ idx₂ - (l₁ : ℚ) := by linarith
      have hstep := getD_sorted_mono s hs (Nat.le_succ l₁.toNat) hl₁top
      nlinarith [hstep, hww, hw₁0]
    · -- strictly larger lower order statistic
      have hmid : l₁.toNat + 1 ≤ l₂.toNat := by omega
      calc s.getD l₁.toNat 0 * (1 - (idx₁ - (l₁ : ℚ))) +
            s.getD (l₁.toNat + 1) 0 * (idx₁ - (l₁ : ℚ)) ≤
          s.getD (l₁.toNat + 1) 0 :=
            interp_le_right s hs hl₁top hw₁0 (le_of_lt hw₁1)
      _ ≤ s.getD l₂.toNat 0 := getD_sorted_mono s hs hmid (by omega)
      _ ≤ s.getD l₂.toNat 0 * (1 - (idx₂ - (l₂ : ℚ))) +
            s.getD (l₂.toNat + 1) 0 * (idx₂ - (l₂ : ℚ)) :=
            interp_ge_left s hs hl₂top hw₂0 (le_of_lt hw₂1)

/-! ### Worker-model lemmas -/

lemma workerRun_at_deadline (deadline : ℚ) (rs : List ReqSpec) :
    workerRun deadline deadline rs = [] := by
  cases rs with
  | nil => rfl
  | cons r rs => simp [workerRun]

lemma workerRun_start_lt (deadline : ℚ) :
    ∀ (t : ℚ) (reqs : List ReqSpec), ∀ s ∈ workerRun deadline t reqs, s.start < deadline := by
  intro t reqs
  induction reqs generalizing t with
  | nil => intro s hs; simp [workerRun] at hs
  | cons r rs ih =>
    intro s hs
    rw [workerRun] at hs
    by_cases hd : deadline ≤ t
    · rw [if_pos hd] at hs
      simp at hs
    · rw [if_neg hd] at hs
      by_cases hfin : t + r.dur ≤ deadline
      · rw [if_pos hfin] at hs
        rcases List.mem_cons.mp hs with hs1 | hs2
        · subst hs1; exact lt_of_not_le hd
        · exact ih _ _ hs2
      · rw [if_neg hfin] at hs
        rcases List.mem_cons.mp hs with hs1 | hs2
        · subst hs1; exact lt_of_not_le hd
        · exact ih _ _ hs2

lemma sampleFailed_eq_not_success (s : Sample) : sampleFailed s = !sampleSuccess s := by
  cases hse : s.err <;> simp [sampleFailed, sampleSuccess, hse]

lemma countP_success_add_failed (l : List Sample) :
    l.countP sampleSuccess + l.countP sampleFailed = l.length := by
  induction l with
  | nil => simp
  | cons s t ih =>
    rw [List.countP_cons, List.countP_cons, sampleFailed_eq_not_success]
    cases hs : sampleSuccess s <;> simp [hs] <;> omega

/-! ### Claim C1: deadline semantics of the worker pool -/

/-- C1 counterexample: one worker, duration 10, one scheduled request that
takes 20 time units and would succeed (no transport error, status 200).
The request is in flight when the deadline arrives, and it is NOT allowed
to finish: the shared timeout context (passed through `client.Get` into
`http.NewRequestWithContext`) cancels it at the deadline, so it is recorded
as a transport-error failure with latency 10 — the run shows 0 successes
and 1 failure although the request's own outcome was a success. -/
theorem c1_counterexample :
    sampleSuccess ⟨0, 20, false, 200⟩ = true ∧
    workerRun 10 0 [⟨20, false, 200⟩] = [⟨0, 10, true, 0⟩] ∧
    (loadTestModel 10 [[⟨20, false, 200⟩]]).successful = 0 ∧
    (loadTestModel 10 [[⟨20, false, 200⟩]]).failed = 1 ∧
    (loadTestModel 10 [[⟨20, false, 200⟩]]).totalRequests = 1 := by
  refine ⟨rfl, ?_, ?_, ?_, ?_⟩ <;>
    norm_num [workerRun, loadTestModel, loadSamples, sampleSuccess, sampleFailed]

/-- C1 as amended: for every concurrency C ≥ 1 and duration D > 0, no
worker starts a new request at or after the deadline (every recorded sample
has start < D), and every request that was started is recorded — the total
tally counts exactly the recorded samples, each sample lands in exactly one
of the success/failure tallies, and the latency collection has one entry
per recorded request.  A request still in flight when the deadline arrives
is not allowed to finish: the deadline context cancels it, and the worker
records it as a transport-error failure with its latency truncated at the
deadline before exiting. -/
theorem c1_deadline_semantics (deadline : ℚ) (scheds : List (List ReqSpec))
    (hD : 0 < deadline) (hC : 1 ≤ scheds.length) :
    (∀ s ∈ loadSamples deadline scheds, s.start < deadline) ∧
    (loadTestModel deadline scheds).totalRequests =
      ((loadSamples deadline scheds).length : ℤ) ∧
    (loadTestModel deadline scheds).successful + (loadTestModel deadline scheds).failed =
      (loadTestModel deadline scheds).totalRequests ∧
    ((loadSamples deadline scheds).map (·.latency)).length =
      (loadSamples deadline scheds).length ∧
    (∀ (t : ℚ) (r : ReqSpec) (rs : List ReqSpec), t < deadline → deadline < t + r.dur →
      workerRun deadline t (r :: rs) = [⟨t, deadline - t, true, 0⟩]) := by
  refine ⟨?_, rfl, ?_, List.length_map _ _, ?_⟩
  · intro s hs
    rw [loadSamples, List.mem_flatten] at hs
    obtain ⟨l, hl, hsl⟩ := hs
    obtain ⟨sched, _, rfl⟩ := List.mem_map.mp hl
    exact workerRun_start_lt deadline 0 sched s hsl
  · show ((_ : ℕ) : ℤ) + ((_ : ℕ) : ℤ) = _
    rw [← Nat.cast_add, countP_success_add_failed]
    rfl
  · intro t r rs h1 h2
    rw [workerRun, if_neg (not_le.mpr h1), if_neg (by linarith), workerRun_at_deadline]

/-- Witness for C1 (amended) at duration 10, one worker, one request of
duration 1. -/
theorem c1_deadline_semantics_witness :
    (∀ s ∈ loadSamples 10 [[⟨1, false, 200⟩]], s.start < 10) ∧
    (loadTestModel 10 [[⟨1, false, 200⟩]]).totalRequests =
      ((loadSamples 10 [[⟨1, false, 200⟩]]).length : ℤ) ∧
    (loadTestModel 10 [[⟨1, false, 200⟩]]).successful +
        (loadTestModel 10 [[⟨1, false, 200⟩]]).failed =
      (loadTestModel 10 [[⟨1, false, 200⟩]]).totalRequests ∧
    ((loadSamples 10 [[⟨1, false, 200⟩]]).map (·.latency)).length =
      (loadSamples 10 [[⟨1, false, 200⟩]]).length ∧
    (∀ (t : ℚ) (r : ReqSpec) (rs : List ReqSpec), t < 10 → 10 < t + r.dur →
      workerRun 10 t (r :: rs) = [⟨t, 10 - t, true, 0⟩]) :=
  c1_deadline_semantics 10 [[⟨1, false, 200⟩]] (by decide) (by simp)

/-! ### Claim C5: tally invariant -/

/-- C5: every completed load-test run with concurrency C ≥ 1 and duration
D > 0 satisfies `total = successful + failed`, and every request lands in
exactly one of the two tallies — the failure test (transport error or
non-2xx status) is the Boolean negation of the success test (2xx and no
transport error); there is no retry (each recorded sample is tallied
once). -/
theorem c5_tally_invariant (deadline : ℚ) (scheds : List (List ReqSpec))
    (hD : 0 < deadline) (hC : 1 ≤ scheds.length) :
    (loadTestModel deadline scheds).totalRequests =
      (loadTestModel deadline scheds).successful + (loadTestModel deadline scheds).failed ∧
    (∀ s : Sample, sampleFailed s = !sampleSuccess s) := by
  constructor
  · show ((_ : ℕ) : ℤ) = ((_ : ℕ) : ℤ) + ((_ : ℕ) : ℤ)
    rw [← Nat.cast_add, countP_success_add_failed]
  · exact sampleFailed_eq_not_success

/-- Witness for C5 at duration 10, one worker with a mixed schedule: one
success, one non-2xx failure, one transport-error failure. -/
theorem c5_tally_invariant_witness :
    (loadTestModel 10 [[⟨1, false, 200⟩, ⟨1, false, 500⟩, ⟨1, true, 0⟩]]).totalRequests =
      (loadTestModel 10 [[⟨1, false, 200⟩, ⟨1, false, 500⟩, ⟨1, true, 0⟩]]).successful +
        (loadTestModel 10 [[⟨1, false, 200⟩, ⟨1, false, 500⟩, ⟨1, true, 0⟩]]).failed ∧
    (∀ s : Sample, sampleFailed s = !sampleSuccess s) :=
  c5_tally_invariant 10 [[⟨1, false, 200⟩, ⟨1, false, 500⟩, ⟨1, true, 0⟩]]
    (by decide) (by simp)

/-! ### Key-collection lemmas -/

lemma mem_addKey {acc : List String} {p q : String} :
    q ∈ addKey acc p ↔ q ∈ acc ∨ q = p := by
  by_cases h : p ∈ acc
  · simp only [addKey, if_pos h]
    constructor
    · exact Or.inl
    · rintro (hq | rfl)
      · exact hq
      · exact h
  · simp [addKey, if_neg h]

lemma nodup_addKey {acc : List String} (p : String) (h : acc.Nodup) :
    (addKey acc p).Nodup := by
  by_cases hmem : p ∈ acc
  · simpa [addKey, if_pos hmem] using h
  · rw [addKey, if_neg hmem, List.nodup_append]
    exact ⟨h, List.nodup_singleton p, by simpa using hmem⟩

lemma mem_foldl_addKey {α : Type} (f : α → String) (l : List α) (acc : List String)
    (q : String) :
    q ∈ l.foldl (fun a x => addKey a (f x)) acc ↔ q ∈ acc ∨ ∃ x ∈ l, f x = q := by
  induction l generalizing acc with
  | nil => simp
  | cons e t ih =>
    rw [List.foldl_cons, ih, mem_addKey]
    simp only [List.mem_cons]
    constructor
    · rintro ((hq | rfl) | ⟨x, hx, rfl⟩)
      · exact Or.inl hq
      · exact Or.inr ⟨e, Or.inl rfl, rfl⟩
      · exact Or.inr ⟨x, Or.inr hx, rfl⟩
    · rintro (hq | ⟨x, hx | hx, rfl⟩)
      · exact Or.inl (Or.inl hq)
      · subst hx; exact Or.inl (Or.inr rfl)
      · exact Or.inr ⟨x, hx, rfl⟩

lemma nodup_foldl_addKey {α : Type} (f : α → String) (l : List α) (acc : List String)
    (h : acc.Nodup) : (l.foldl (fun a x => addKey a (f x)) acc).Nodup := by
  induction l generalizing acc with
  | nil => simpa
  | cons e t ih => exact ih _ (nodup_addKey _ h)

/-- The union of endpoint paths collected by one step of the outer
`collectEndpointPaths` loop. -/
lemma mem_foldl_endpoints (results : List BenchmarkResult) (acc : List String) (q : String) :
    q ∈ results.foldl (fun acc r => r.endpoints.foldl (fun a ep => addKey a ep.path) acc) acc ↔
      q ∈ acc ∨ ∃ r ∈ results, ∃ ep ∈ r.endpoints, ep.path = q := by
  induction results generalizing acc with
  | nil => simp
  | cons r t ih =>
    rw [List.foldl_cons, ih, mem_foldl_addKey]
    simp only [List.mem_cons]
    constructor
    · rintro ((hq | hq) | ⟨r2, hr2, hep⟩)
      · exact Or.inl hq
      · exact Or.inr ⟨r, Or.inl rfl, hq⟩
      · exact Or.inr ⟨r2, Or.inr hr2, hep⟩
    · rintro (hq | ⟨r2, hr2 | hr2, hep⟩)
      · exact Or.inl (Or.inl hq)
      · subst hr2; exact Or.inl (Or.inr hep)
      · exact Or.inr ⟨r2, hr2, hep⟩

lemma nodup_foldl_endpoints (results : List BenchmarkResult) (acc : List String)
    (h : acc.Nodup) :
    (results.foldl (fun acc r => r.endpoints.foldl (fun a ep => addKey a ep.path) acc)
      acc).Nodup := by
  induction results generalizing acc with
  | nil => simpa
  | cons r t ih => exact ih _ (nodup_foldl_addKey _ _ _ h)

/-- One step of the `collectAssetPaths` loop adds exactly the asset keys of
that run (with `"index.html"` when it measured the index page). -/
lemma mem_assetStep (r : BenchmarkResult) (acc : List String) (q : String) :
    q ∈ assetStep acc r ↔
      q ∈ acc ∨ ∃ f, r.frontend = some f ∧
        ((q = "index.html" ∧ f.indexHTML.isSome) ∨ ∃ a ∈ f.assets, a.path = q) := by
  rw [assetStep]
  cases hf : r.frontend with
  | none => simp [hf]
  | some f =>
    cases hi : f.indexHTML with
    | none =>
      rw [mem_foldl_addKey]
      simp [hf, hi]
    | some a0 =>
      simp only [hi]
      rw [mem_foldl_addKey, mem_addKey]
      simp only [hf, Option.some.injEq]
      constructor
      · rintro ((hq | rfl) | ⟨x, hx, rfl⟩)
        · exact Or.inl hq
        · exact Or.inr ⟨f, rfl, Or.inl ⟨rfl, by rw [hi]; rfl⟩⟩
        · exact Or.inr ⟨f, rfl, Or.inr ⟨x, hx, rfl⟩⟩
      · rintro (hq | ⟨f2, hf2, ⟨rfl, hsome⟩ | ⟨x, hx, rfl⟩⟩)
        · exact Or.inl (Or.inl hq)
        · exact Or.inl (Or.inr rfl)
        · cases hf2
          exact Or.inr ⟨x, hx, rfl⟩

lemma nodup_assetStep (r : BenchmarkResult) (acc : List String) (h : acc.Nodup) :
    (assetStep acc r).Nodup := by
  rw [assetStep]
  cases hf : r.frontend with
  | none => exact h
  | some f =>
    cases hi : f.indexHTML with
    | none =>
      simp only [hi]
      exact nodup_foldl_addKey _ _ _ h
    | some a0 =>
      simp only [hi]
      exact nodup_foldl_addKey _ _ _ (nodup_addKey _ h)

lemma mem_foldl_assets (results : List BenchmarkResult) (acc : List String) (q : String) :
    q ∈ results.foldl assetStep acc ↔
      q ∈ acc ∨ ∃ r ∈ results, ∃ f, r.frontend = some f ∧
        ((q = "index.html" ∧ f.indexHTML.isSome) ∨ ∃ a ∈ f.assets, a.path = q) := by
  induction results generalizing acc with
  | nil => simp
  | cons r t ih =>
    rw [List.foldl_cons, ih, mem_assetStep]
    simp only [List.mem_cons]
    constructor
    · rintro ((hq | hq) | ⟨r2, hr2, hrest⟩)
      · exact Or.inl hq
      · exact Or.inr ⟨r, Or.inl rfl, hq⟩
      · exact Or.inr ⟨r2, Or.inr hr2, hrest⟩
    · rintro (hq | ⟨r2, hr2 | hr2, hrest⟩)
      · exact Or.inl (Or.inl hq)
      · subst hr2; exact Or.inl (Or.inr hrest)
      · exact Or.inr ⟨r2, hr2, hrest⟩

lemma nodup_foldl_assets (results : List BenchmarkResult) (acc : List String)
    (h : acc.Nodup) : (results.foldl assetStep acc).Nodup := by
  induction results generalizing acc with
  | nil => simpa
  | cons r t ih => exact ih _ (nodup_assetStep _ _ h)

/-! ### Claim C8: comparator precondition -/

/-- C8: invoking the Run Comparator on fewer than 2 runs is a hard error:
the precondition failure is reported immediately with the source's message
(naming the at-least-2 requirement and the count received), and no delta
computation, key reconciliation or alert evaluation is performed (`report`
returns `.error` before constructing any `ReportData`). -/
theorem c8_report_precondition (t : ThresholdConfig) (runs : List BenchmarkResult)
    (h : runs.length < 2) :
    report t runs =
      .error ("comparison requires at least 2 JSON files, got " ++ toString runs.length) := by
  simp [report, h]

/-- Witness for C8 at the concrete input of zero runs. -/
theorem c8_report_precondition_witness :
    report ⟨500, 1000, 1, 10, 100⟩ [] =
      .error ("comparison requires at least 2 JSON files, got " ++
        toString (List.length ([] : List BenchmarkResult))) :=
  c8_report_precondition ⟨500, 1000, 1, 10, 100⟩ [] (by simp)

/-! ### Claim C4: zero-valued first run in delta formatting -/

/-- C4 counterexample: for the RPS metric, a first-run value of 0 and a
non-zero last-run value is classified with the green improvement marker
(`formatDeltaRPS` line 866 prints `🟢 +%.2f`), not as a regression as the
claim states for every compared metric. -/
theorem c4_counterexample :
    formatDeltaRPS 8 0 = .rawImprovement 8 ∧
    DeltaClass.rawImprovement (8 : ℚ) ≠ DeltaClass.rawRegression 8 := by
  constructor
  · simp [formatDeltaRPS]
  · intro h
    exact DeltaClass.noConfusion h

/-- C4 as amended: when first and last are both 0 every format function
reports "no data"; when first is 0 and last is non-zero, the time-based and
size metrics classify the delta as a regression with the raw value shown
(no percentage), while RPS — being higher-is-better — classifies it as an
improvement with the raw value shown. -/
theorem c4_zero_first_delta (last : ℚ) (h : last ≠ 0) :
    formatDelta last 0 = .rawRegression last ∧
    formatDeltaSize last 0 = .rawRegression last ∧
    formatDeltaRPS last 0 = .rawImprovement last ∧
    formatDelta 0 0 = .noData ∧
    formatDeltaSize 0 0 = .noData ∧
    formatDeltaRPS 0 0 = .noData := by
  refine ⟨?_, ?_, ?_, ?_, ?_, ?_⟩ <;>
    simp [formatDelta, formatDeltaSize, formatDeltaRPS, h]

/-- Witness for C4 at the concrete last-run value 8. -/
theorem c4_zero_first_delta_witness :
    formatDelta 8 0 = .rawRegression 8 ∧
    formatDeltaSize 8 0 = .rawRegression 8 ∧
    formatDeltaRPS 8 0 = .rawImprovement 8 ∧
    formatDelta 0 0 = .noData ∧
    formatDeltaSize 0 0 = .noData ∧
    formatDeltaRPS 0 0 = .noData :=
  c4_zero_first_delta 8 (by decide)

/-! ### Claim C7: threshold evaluator -/

/-- C7: a single run whose health response time, p95 latency, p99 latency,
error rate and RPS each violate their thresholds (strictly above the
ceiling for the first four, strictly below the minimum for RPS) produces
exactly five alerts, in rule order; and a run missing an optional section
is silently skipped for each rule that reads that section: with the
load-test section absent only the health rule is evaluated (the claim's own
example), a run without a health section never yields a health alert, a
run without a load-test section yields only health alerts, and a run with
neither section yields no alert at all. -/
theorem c7_threshold_rules (t : ThresholdConfig) (r : BenchmarkResult)
    (h : HealthResult) (lt : LoadTestResult)
    (hh : r.health = some h) (hlt : r.loadTest = some lt)
    (hv1 : t.healthResponseMax < h.responseMs)
    (hv2 : t.latencyP95MaxMs < lt.latencyP95Ms)
    (hv3 : t.latencyP99MaxMs < lt.latencyP99Ms)
    (hv4 : 0 < lt.totalRequests)
    (hv5 : t.errorRateMaxPct < (lt.failed : ℚ) / (lt.totalRequests : ℚ) * 100)
    (hv6 : lt.rps < t.rpsMinimum) :
    checkThresholds t [r] =
      [⟨0, "health_response", h.responseMs, t.healthResponseMax⟩,
       ⟨0, "p95_latency", lt.latencyP95Ms, t.latencyP95MaxMs⟩,
       ⟨0, "p99_latency", lt.latencyP99Ms, t.latencyP99MaxMs⟩,
       ⟨0, "error_rate", (lt.failed : ℚ) / (lt.totalRequests : ℚ) * 100, t.errorRateMaxPct⟩,
       ⟨0, "rps", lt.rps, t.rpsMinimum⟩] ∧
    (∀ (t2 : ThresholdConfig) (i : ℕ) (r2 : BenchmarkResult) (h2 : HealthResult),
      r2.health = some h2 → r2.loadTest = none →
      checkRun t2 i r2 =
        if t2.healthResponseMax < h2.responseMs then
          [⟨i, "health_response", h2.responseMs, t2.healthResponseMax⟩]
        else []) ∧
    (∀ (t2 : ThresholdConfig) (i : ℕ) (r2 : BenchmarkResult), r2.health = none →
      ∀ a ∈ checkRun t2 i r2, a.metric ≠ "health_response") ∧
    (∀ (t2 : ThresholdConfig) (i : ℕ) (r2 : BenchmarkResult), r2.loadTest = none →
      ∀ a ∈ checkRun t2 i r2, a.metric = "health_response") ∧
    (∀ (t2 : ThresholdConfig) (i : ℕ) (r2 : BenchmarkResult),
      r2.health = none → r2.loadTest = none → checkRun t2 i r2 = []) := by
  refine ⟨?_, ?_, ?_, ?_, ?_⟩
  · simp [checkThresholds, checkRun, hh, hlt, hv1, hv2, hv3, hv4, hv5, hv6]
  · intro t2 i r2 h2 hh2 hlt2
    simp [checkRun, hh2, hlt2]
  · intro t2 i r2 hh2 a ha
    cases hlt2 : r2.loadTest with
    | none =>
      simp [checkRun, hh2, hlt2] at ha
    | some lt2 =>
      simp only [checkRun, hh2, hlt2, List.nil_append] at ha
      rcases List.mem_append.mp ha with hx | hx
      · rcases List.mem_append.mp hx with hy | hy
        · rcases List.mem_append.mp hy with hz | hz <;> split_ifs at hz <;> simp_all
        · split_ifs at hy <;> simp_all
      · split_ifs at hx <;> simp_all
  · intro t2 i r2 hlt2 a ha
    cases hh2 : r2.health with
    | none =>
      simp [checkRun, hh2, hlt2] at ha
    | some h2 =>
      simp only [checkRun, hh2, hlt2, List.append_nil] at ha
      split_ifs at ha <;> simp_all
  · intro t2 i r2 hh2 hlt2
    simp [checkRun, hh2, hlt2]

/-- Witness for C7: the default thresholds and one run violating all five
rules, together with the per-rule skip guarantees. -/
theorem c7_threshold_rules_witness :
    checkThresholds ⟨500, 1000, 1, 10, 100⟩
        [⟨0, some ⟨"healthy", 150⟩, [], none,
          some ⟨10, 30, 100, 50, 50, 5, 100, 600, 1200, 1, 2000, 300⟩⟩] =
      [⟨0, "health_response", 150, 100⟩,
       ⟨0, "p95_latency", 600, 500⟩,
       ⟨0, "p99_latency", 1200, 1000⟩,
       ⟨0, "error_rate", ((50 : ℤ) : ℚ) / ((100 : ℤ) : ℚ) * 100, 1⟩,
       ⟨0, "rps", 5, 10⟩] ∧
    (∀ (t2 : ThresholdConfig) (i : ℕ) (r2 : BenchmarkResult) (h2 : HealthResult),
      r2.health = some h2 → r2.loadTest = none →
      checkRun t2 i r2 =
        if t2.healthResponseMax < h2.responseMs then
          [⟨i, "health_response", h2.responseMs, t2.healthResponseMax⟩]
        else []) ∧
    (∀ (t2 : ThresholdConfig) (i : ℕ) (r2 : BenchmarkResult), r2.health = none →
      ∀ a ∈ checkRun t2 i r2, a.metric ≠ "health_response") ∧
    (∀ (t2 : ThresholdConfig) (i : ℕ) (r2 : BenchmarkResult), r2.loadTest = none →
      ∀ a ∈ checkRun t2 i r2, a.metric = "health_response") ∧
    (∀ (t2 : ThresholdConfig) (i : ℕ) (r2 : BenchmarkResult),
      r2.health = none → r2.loadTest = none → checkRun t2 i r2 = []) :=
  c7_threshold_rules ⟨500, 1000, 1, 10, 100⟩
    ⟨0, some ⟨"healthy", 150⟩, [], none,
      some ⟨10, 30, 100, 50, 50, 5, 100, 600, 1200, 1, 2000, 300⟩⟩
    ⟨"healthy", 150⟩ ⟨10, 30, 100, 50, 50, 5, 100, 600, 1200, 1, 2000, 300⟩
    rfl rfl (by decide) (by decide) (by decide) (by decide) (by norm_num) (by decide)

/-! ### Claim C2: percentile refines the spec algorithm -/

/-- C2: for every collection of numeric samples (in any order) and every
percentile P in [0,100], the percentile operation — sorting the samples
ascending and applying the source interpolation — returns exactly the value
prescribed by the spec algorithm: 0 when empty, the single value for one
element, and otherwise the linear interpolation
`samples[lo]*(1-w) + samples[hi]*w` at `idx = (P/100)*(n-1)`,
`lo = floor(idx)`, `hi = lo+1` clamped to `n-1`, `w = idx - lo`. -/
theorem c2_percentile_refines_spec (samples : List ℚ) (p : ℚ)
    (h0 : 0 ≤ p) (h100 : p ≤ 100) :
    percentile (sortQ samples) p = specPercentile samples p := by
  simp only [specPercentile]
  rcases Nat.eq_zero_or_pos (sortQ samples).length with hn | hn
  · simp [percentile, hn]
  by_cases hn1 : (sortQ samples).length = 1
  · rw [percentile_eq_cases _ p h0 hn.ne', if_neg hn.ne', if_pos hn1]
    have hidx : (p / 100) * (((sortQ samples).length : ℚ) - 1) = 0 := by
      rw [hn1]; norm_num
    rw [hidx, if_pos (by rw [hn1]; norm_num), hn1, headD_eq_getD_zero]
  · rw [percentile_eq_cases _ p h0 hn.ne', if_neg hn.ne', if_neg hn1]
    have hn2 : 2 ≤ (sortQ samples).length := by omega
    have hn1q : (1 : ℚ) ≤ ((sortQ samples).length : ℚ) := by exact_mod_cast hn
    have hnn : (0 : ℚ) ≤ ((sortQ samples).length : ℚ) - 1 := by linarith
    set idx : ℚ := (p / 100) * (((sortQ samples).length : ℚ) - 1) with hidxdef
    have hi0 : 0 ≤ idx := mul_nonneg (div_nonneg h0 (by norm_num)) hnn
    have hiup : idx ≤ ((sortQ samples).length : ℚ) - 1 := by
      have hp2 : p / 100 ≤ 1 := by linarith
      calc idx ≤ 1 * (((sortQ samples).length : ℚ) - 1) :=
            mul_le_mul_of_nonneg_right hp2 hnn
      _ = ((sortQ samples).length : ℚ) - 1 := one_mul _
    have hfl0 : 0 ≤ ⌊idx⌋ := Int.floor_nonneg.mpr hi0
    have hflup : ⌊idx⌋ ≤ ((sortQ samples).length : ℤ) - 1 := by
      have hcast : (((sortQ samples).length : ℚ) - 1) =
          ((((sortQ samples).length : ℤ) - 1 : ℤ) : ℚ) := by push_cast; ring
      calc ⌊idx⌋ ≤ ⌊((sortQ samples).length : ℚ) - 1⌋ := Int.floor_le_floor hiup
      _ = ((sortQ samples).length : ℤ) - 1 := by rw [hcast, Int.floor_intCast]
    have hcastlo : ((⌊idx⌋.toNat : ℕ) : ℚ) = ((⌊idx⌋ : ℤ) : ℚ) := by
      exact_mod_cast congrArg (fun z : ℤ => (z : ℚ)) (Int.toNat_of_nonneg hfl0)
    split_ifs with hb
    · -- the source clamps to the last element; here idx = n-1 exactly
      have hfl : ⌊idx⌋ = ((sortQ samples).length : ℤ) - 1 := by omega
      have hidxeq : idx = ((sortQ samples).length : ℚ) - 1 := by
        have hle : (⌊idx⌋ : ℚ) ≤ idx := Int.floor_le idx
        rw [hfl] at hle
        push_cast at hle
        linarith
      have hlo : ⌊idx⌋.toNat = (sortQ samples).length - 1 := by omega
      have hw : idx - ((⌊idx⌋.toNat : ℕ) : ℚ) = 0 := by
        rw [hcastlo, hfl, hidxeq]; push_cast; ring
      rw [hlo] at hw ⊢
      rw [hw]
      have hmin : min ((sortQ samples).length - 1 + 1) ((sortQ samples).length - 1) =
          (sortQ samples).length - 1 := by omega
      rw [hmin]
      ring
    · -- both sides interpolate between lo and lo+1
      have hmin : min (⌊idx⌋.toNat + 1) ((sortQ samples).length - 1) = ⌊idx⌋.toNat + 1 := by
        omega
      have htop : (⌊idx⌋ + 1).toNat = ⌊idx⌋.toNat + 1 := by omega
      rw [hmin, htop, hcastlo]

/-- Witness for C2 at the spec's own test vector. -/
theorem c2_percentile_refines_spec_witness :
    percentile (sortQ [10, 20, 30, 40, 50]) 50 = specPercentile [10, 20, 30, 40, 50] 50 :=
  c2_percentile_refines_spec [10, 20, 30, 40, 50] 50 (by decide) (by decide)

/-! ### Claim C9: percentile extremes -/

/-- C9: for every non-empty input collection (in any order),
`percentile(x, 0)` is the minimum element of `x` (a member that bounds all
members from below) and `percentile(x, 100)` is the maximum element. -/
theorem c9_percentile_extremes (x : List ℚ) (hx : x ≠ []) :
    percentile (sortQ x) 0 ∈ x ∧ (∀ a ∈ x, percentile (sortQ x) 0 ≤ a) ∧
    percentile (sortQ x) 100 ∈ x ∧ (∀ a ∈ x, a ≤ percentile (sortQ x) 100) := by
  have hlen : (sortQ x).length = x.length := sortQ_length x
  have hn : (sortQ x).length ≠ 0 := by
    rw [hlen]
    intro h
    exact hx (List.length_eq_zero.mp h)
  have hs := sortQ_sorted x
  have hperm := sortQ_perm x
  have hzero := percentile_sorted_zero (sortQ x) hn
  have hhundred := percentile_sorted_hundred (sortQ x) hn
  have hmem0 : (sortQ x).getD 0 0 ∈ sortQ x := by
    rw [List.getD_eq_getElem _ 0 (by omega)]
    exact List.getElem_mem _
  have hmemN : (sortQ x).getD ((sortQ x).length - 1) 0 ∈ sortQ x := by
    rw [List.getD_eq_getElem _ 0 (by omega)]
    exact List.getElem_mem _
  refine ⟨?_, ?_, ?_, ?_⟩
  · rw [hzero]; exact hperm.mem_iff.mp hmem0
  · intro a ha
    obtain ⟨i, hi, hia⟩ := List.mem_iff_getElem.mp (hperm.mem_iff.mpr ha)
    rw [hzero, ← hia, ← List.getD_eq_getElem _ 0 hi]
    exact getD_sorted_mono _ hs (Nat.zero_le i) hi
  · rw [hhundred]; exact hperm.mem_iff.mp hmemN
  · intro a ha
    obtain ⟨i, hi, hia⟩ := List.mem_iff_getElem.mp (hperm.mem_iff.mpr ha)
    rw [hhundred, ← hia, ← List.getD_eq_getElem _ 0 hi]
    exact getD_sorted_mono _ hs (by omega) (by omega)

/-- Witness for C9 at an unordered concrete collection. -/
theorem c9_percentile_extremes_witness :
    percentile (sortQ [30, 10, 20]) 0 ∈ [30, 10, 20] ∧
    (∀ a ∈ [30, 10, 20], percentile (sortQ [30, 10, 20]) 0 ≤ a) ∧
    percentile (sortQ [30, 10, 20]) 100 ∈ [30, 10, 20] ∧
    (∀ a ∈ [30, 10, 20], a ≤ percentile (sortQ [30, 10, 20]) 100) :=
  c9_percentile_extremes [30, 10, 20] (by simp)

/-! ### Claim C10: percentile index safety -/

/-- C10: for every non-empty sorted sample list and percentile P in
[0,100], every slice index the source computes is within bounds — the
checked variant returns `some` of the unchecked value, never the
out-of-range marker — and whenever the clamped upper index reaches the list
length (in particular at P = 100) the function returns the last element. -/
theorem c10_percentile_safety (s : List ℚ) (p : ℚ) (hs : List.Sorted (· ≤ ·) s)
    (hne : s ≠ []) (h0 : 0 ≤ p) (h100 : p ≤ 100) :
    percentileChecked s p = some (percentile s p) ∧
    ((s.length : ℤ) ≤ truncQ ((p / 100) * ((s.length : ℚ) - 1)) + 1 →
      percentile s p = s.getD (s.length - 1) 0) ∧
    percentile s 100 = s.getD (s.length - 1) 0 := by
  have hn : s.length ≠ 0 := by
    intro h
    exact hne (List.length_eq_zero.mp h)
  have hn1 : (1 : ℚ) ≤ (s.length : ℚ) := by
    have : 1 ≤ s.length := Nat.one_le_iff_ne_zero.mpr hn
    exact_mod_cast this
  have hnn : (0 : ℚ) ≤ (s.length : ℚ) - 1 := by linarith
  have hi0 : 0 ≤ (p / 100) * ((s.length : ℚ) - 1) :=
    mul_nonneg (div_nonneg h0 (by norm_num)) hnn
  have hfl0 : 0 ≤ ⌊(p / 100) * ((s.length : ℚ) - 1)⌋ := Int.floor_nonneg.mpr hi0
  refine ⟨?_, ?_, percentile_sorted_hundred s hn⟩
  · rw [percentile_eq_cases s p h0 hn]
    simp only [percentileChecked, if_neg hn, truncQ_eq_floor hi0]
    split_ifs with hb hbound
    · rfl
    · rfl
    · exact absurd ⟨hfl0, by omega⟩ hbound
  · intro hclamp
    rw [truncQ_eq_floor hi0] at hclamp
    rw [percentile_eq_cases s p h0 hn, if_pos hclamp]

/-- Witness for C10 at the sorted two-element list `[1, 2]` and P = 50. -/
theorem c10_percentile_safety_witness :
    percentileChecked [1, 2] 50 = some (percentile [1, 2] 50) ∧
    (((([1, 2] : List ℚ).length : ℤ) ≤
        truncQ ((50 / 100) * ((([1, 2] : List ℚ).length : ℚ) - 1)) + 1 →
      percentile [1, 2] 50 = ([1, 2] : List ℚ).getD (([1, 2] : List ℚ).length - 1) 0)) ∧
    percentile [1, 2] 100 = ([1, 2] : List ℚ).getD (([1, 2] : List ℚ).length - 1) 0 :=
  c10_percentile_safety [1, 2] 50 (by simp) (by simp) (by decide) (by decide)

/-! ### Claim C6: latency statistic ordering -/

/-- C6: for every load-test run aggregated from a non-empty sample
collection (total > 0) the latency statistics satisfy
`min ≤ p50 ≤ p95 ≤ p99 ≤ max`; and when total = 0 every latency statistic
(min, max, avg, p50, p95, p99) is 0. -/
theorem c6_latency_stat_order (deadline : ℚ) (scheds : List (List ReqSpec)) :
    (0 < (loadTestModel deadline scheds).totalRequests →
      (loadTestModel deadline scheds).minLatencyMs ≤
          (loadTestModel deadline scheds).latencyP50Ms ∧
      (loadTestModel deadline scheds).latencyP50Ms ≤
          (loadTestModel deadline scheds).latencyP95Ms ∧
      (loadTestModel deadline scheds).latencyP95Ms ≤
          (loadTestModel deadline scheds).latencyP99Ms ∧
      (loadTestModel deadline scheds).latencyP99Ms ≤
          (loadTestModel deadline scheds).maxLatencyMs) ∧
    ((loadTestModel deadline scheds).totalRequests = 0 →
      (loadTestModel deadline scheds).minLatencyMs = 0 ∧
      (loadTestModel deadline scheds).maxLatencyMs = 0 ∧
      (loadTestModel deadline scheds).avgLatencyMs = 0 ∧
      (loadTestModel deadline scheds).latencyP50Ms = 0 ∧
      (loadTestModel deadline scheds).latencyP95Ms = 0 ∧
      (loadTestModel deadline scheds).latencyP99Ms = 0) := by
  have htot : (loadTestModel deadline scheds).totalRequests =
      (((loadSamples deadline scheds).length : ℕ) : ℤ) := rfl
  have hlat : ((loadSamples deadline scheds).map (·.latency)).length =
      (loadSamples deadline scheds).length := List.length_map _ _
  constructor
  · intro hpos
    have hlen : 0 < ((loadSamples deadline scheds).map (·.latency)).length := by
      rw [hlat]
      rw [htot] at hpos
      exact_mod_cast hpos
    have hsortlen : (sortQ ((loadSamples deadline scheds).map (·.latency))).length ≠ 0 := by
      rw [sortQ_length]
      omega
    have hsorted := sortQ_sorted ((loadSamples deadline scheds).map (·.latency))
    have hmin : (loadTestModel deadline scheds).minLatencyMs =
        (sortQ ((loadSamples deadline scheds).map (·.latency))).headD 0 := by
      show (if 0 < ((loadSamples deadline scheds).map (·.latency)).length then _ else _) = _
      rw [if_pos hlen]
    have hmax : (loadTestModel deadline scheds).maxLatencyMs =
        (sortQ ((loadSamples deadline scheds).map (·.latency))).getD
          ((sortQ ((loadSamples deadline scheds).map (·.latency))).length - 1) 0 := by
      show (if 0 < ((loadSamples deadline scheds).map (·.latency)).length then _ else _) = _
      rw [if_pos hlen]
    have hp50 : (loadTestModel deadline scheds).latencyP50Ms =
        percentile (sortQ ((loadSamples deadline scheds).map (·.latency))) 50 := by
      show (if 0 < ((loadSamples deadline scheds).map (·.latency)).length then _ else _) = _
      rw [if_pos hlen]
    have hp95 : (loadTestModel deadline scheds).latencyP95Ms =
        percentile (sortQ ((loadSamples deadline scheds).map (·.latency))) 95 := by
      show (if 0 < ((loadSamples deadline scheds).map (·.latency)).length then _ else _) = _
      rw [if_pos hlen]
    have hp99 : (loadTestModel deadline scheds).latencyP99Ms =
        percentile (sortQ ((loadSamples deadline scheds).map (·.latency))) 99 := by
      show (if 0 < ((loadSamples deadline scheds).map (·.latency)).length then _ else _) = _
      rw [if_pos hlen]
    refine ⟨?_, ?_, ?_, ?_⟩
    · rw [hmin, hp50, headD_eq_getD_zero, ← percentile_sorted_zero _ hsortlen]
      exact percentile_mono _ hsorted (by norm_num) (by norm_num) (by norm_num)
    · rw [hp50, hp95]
      exact percentile_mono _ hsorted (by norm_num) (by norm_num) (by norm_num)
    · rw [hp95, hp99]
      exact percentile_mono _ hsorted (by norm_num) (by norm_num) (by norm_num)
    · rw [hp99, hmax, ← percentile_sorted_hundred _ hsortlen]
      exact percentile_mono _ hsorted (by norm_num) (by norm_num) (by norm_num)
  · intro hzero
    have hlen : ¬ 0 < ((loadSamples deadline scheds).map (·.latency)).length := by
      rw [hlat]
      rw [htot] at hzero
      omega
    refine ⟨?_, ?_, ?_, ?_, ?_, ?_⟩ <;>
      · show (if 0 < ((loadSamples deadline scheds).map (·.latency)).length then _ else _) = _
        rw [if_neg hlen]

/-- Witness for C6: one worker whose single request finishes well before
the deadline (total = 1) for the ordering chain, and an idle worker pool
(total = 0) for the all-zero case. -/
theorem c6_latency_stat_order_witness :
    ((loadTestModel 10 [[⟨1, false, 200⟩]]).minLatencyMs ≤
        (loadTestModel 10 [[⟨1, false, 200⟩]]).latencyP50Ms ∧
      (loadTestModel 10 [[⟨1, false, 200⟩]]).latencyP50Ms ≤
        (loadTestModel 10 [[⟨1, false, 200⟩]]).latencyP95Ms ∧
      (loadTestModel 10 [[⟨1, false, 200⟩]]).latencyP95Ms ≤
        (loadTestModel 10 [[⟨1, false, 200⟩]]).latencyP99Ms ∧
      (loadTestModel 10 [[⟨1, false, 200⟩]]).latencyP99Ms ≤
        (loadTestModel 10 [[⟨1, false, 200⟩]]).maxLatencyMs) ∧
    ((loadTestModel 10 [[]]).minLatencyMs = 0 ∧
      (loadTestModel 10 [[]]).maxLatencyMs = 0 ∧
      (loadTestModel 10 [[]]).avgLatencyMs = 0 ∧
      (loadTestModel 10 [[]]).latencyP50Ms = 0 ∧
      (loadTestModel 10 [[]]).latencyP95Ms = 0 ∧
      (loadTestModel 10 [[]]).latencyP99Ms = 0) :=
  ⟨(c6_latency_stat_order 10 [[⟨1, false, 200⟩]]).1
      (by norm_num [loadTestModel, loadSamples, workerRun]),
    (c6_latency_stat_order 10 [[]]).2 rfl⟩

/-! ### Claim C3: key reconciliation -/

/-- C3 counterexample: with asset `b.js` only in the first run and `a.js`
only in the second, the comparator's asset key list is `["b.js", "a.js"]` —
the union in encounter order, NOT sorted lexicographically (the sorted
union would be `["a.js", "b.js"]`). -/
theorem c3_counterexample :
    collectAssetPaths [assetRunB, assetRunA] = ["b.js", "a.js"] ∧
    sortStrings ["b.js", "a.js"] = ["a.js", "b.js"] ∧
    ¬ List.Sorted (· ≤ ·) ["b.js", "a.js"] := by
  have hle : ¬ (("b.js" : String) ≤ "a.js") := by
    rw [String.le_iff_toList_le]
    decide
  refine ⟨?_, ?_, ?_⟩
  · rfl
  · simp [sortStrings, List.insertionSort, List.orderedInsert, hle]
  · intro hsort
    rw [List.sorted_cons] at hsort
    exact hle (hsort.1 _ (List.mem_singleton_self _))

/-- C3 as amended: the endpoint key list is exactly the union of endpoint
paths observed across all runs, sorted lexicographically and without
duplicates, with a placeholder for a run lacking the key (the lookup
returns `none` exactly when the run has no entry for the path) and a delta
computed only from the runs that report a value (first and last reported
values; no delta when no run reports one).  The asset key list is the
duplicate-free union of asset keys in encounter order (`"index.html"`
contributed by runs that measured the index page), NOT sorted, and the
per-asset table carries no delta column at all. -/
theorem c3_key_reconciliation (results : List BenchmarkResult) :
    List.Sorted (· ≤ ·) (collectEndpointPaths results) ∧
    (∀ q, q ∈ collectEndpointPaths results ↔
      ∃ r ∈ results, ∃ ep ∈ r.endpoints, ep.path = q) ∧
    (collectEndpointPaths results).Nodup ∧
    (∀ q, q ∈ collectAssetPaths results ↔
      ∃ r ∈ results, ∃ f, r.frontend = some f ∧
        ((q = "index.html" ∧ f.indexHTML.isSome) ∨ ∃ a ∈ f.assets, a.path = q)) ∧
    (collectAssetPaths results).Nodup ∧
    (∀ r q, getEndpointResponseTime r q = none ↔ ∀ ep ∈ r.endpoints, ep.path ≠ q) ∧
    (∀ q, endpointDelta results q = none ↔
      results.filterMap (fun r => getEndpointResponseTime r q) = []) ∧
    (∀ q v vs, results.filterMap (fun r => getEndpointResponseTime r q) = v :: vs →
      endpointDelta results q = some (formatDelta ((v :: vs).getLastD 0) v)) := by
  refine ⟨?_, ?_, ?_, ?_, ?_, ?_, ?_, ?_⟩
  · exact List.sorted_insertionSort _ _
  · intro q
    rw [collectEndpointPaths, sortStrings, List.mem_insertionSort, mem_foldl_endpoints]
    simp
  · exact (List.perm_insertionSort _ _).nodup_iff.mpr
      (nodup_foldl_endpoints _ _ List.nodup_nil)
  · intro q
    rw [collectAssetPaths, mem_foldl_assets]
    simp
  · exact nodup_foldl_assets _ _ List.nodup_nil
  · intro r q
    simp [getEndpointResponseTime, List.find?_eq_none]
  · intro q
    cases hcase : results.filterMap (fun r => getEndpointResponseTime r q) with
    | nil => simp [endpointDelta, hcase]
    | cons v vs => simp [endpointDelta, hcase]
  · intro q v vs h
    simp [endpointDelta, h]

/-- Witness for C3 (amended) at the two concrete runs of the
counterexample. -/
theorem c3_key_reconciliation_witness :
    List.Sorted (· ≤ ·) (collectEndpointPaths [assetRunB, assetRunA]) ∧
    (∀ q, q ∈ collectEndpointPaths [assetRunB, assetRunA] ↔
      ∃ r ∈ [assetRunB, assetRunA], ∃ ep ∈ r.endpoints, ep.path = q) ∧
    (collectEndpointPaths [assetRunB, assetRunA]).Nodup ∧
    (∀ q, q ∈ collectAssetPaths [assetRunB, assetRunA] ↔
      ∃ r ∈ [assetRunB, assetRunA], ∃ f, r.frontend = some f ∧
        ((q = "index.html" ∧ f.indexHTML.isSome) ∨ ∃ a ∈ f.assets, a.path = q)) ∧
    (collectAssetPaths [assetRunB, assetRunA]).Nodup ∧
    (∀ r q, getEndpointResponseTime r q = none ↔ ∀ ep ∈ r.endpoints, ep.path ≠ q) ∧
    (∀ q, endpointDelta [assetRunB, assetRunA] q = none ↔
      ([assetRunB, assetRunA].filterMap (fun r => getEndpointResponseTime r q)) = []) ∧
    (∀ q v vs,
      ([assetRunB, assetRunA].filterMap (fun r => getEndpointResponseTime r q)) = v :: vs →
      endpointDelta [assetRunB, assetRunA] q = some (formatDelta ((v :: vs).getLastD 0) v)) :=
  c3_key_reconciliation [assetRunB, assetRunA]

end ActalogBench
